import Mathlib

/-
  Verification of the SysWhispers2 generator (`syswhispers.py`) against its
  natural-language specification.

  The Python program is shallowly embedded below:
  * strings are Lean `String` / `List Char`;
  * Python's unbounded integers are `Nat` (masking is written explicitly where
    the source masks, and only there);
  * Python dictionaries (insertion ordered) are association lists
    `List (String × Proto)` with the corresponding insert/delete operations;
  * exceptions (`ValueError`, `KeyError`, `StopIteration`) are `Option`/error
    results;
  * the `while` loop of the typedef layer computation is given explicit fuel:
    `none` models a run that raises or does not terminate;
  * file output is modelled as an ordered trace of write events, one event per
    `write` call in the source, tagged with the file being written
    (`.c` body, `.asm` stubs, `.h` header).  Iteration order of Python's
    `set()` over small ints is implementation defined; it is modelled as
    first-occurrence order, which no theorem below depends on.
-/

namespace SW

/-! ## Basic string utilities (Python `str.replace(old, new, 1)`, `os.path.basename`, `f-string` hex formatting) -/

/-- Python `s.replace(old, new, 1)` on lists: replace the first occurrence of
`old` by `new`.  `old = []` inserts `new` in front, as in Python. -/
def replaceFirstL [DecidableEq α] (old new : List α) : List α → List α
  | [] => if old = [] then new else []
  | c :: rest =>
    if old.isPrefixOf (c :: rest) then new ++ List.drop old.length (c :: rest)
    else c :: replaceFirstL old new rest

/-- Python `s.replace(old, new, 1)` on strings. -/
def replaceFirst (s old new : String) : String :=
  ⟨replaceFirstL old.data new.data s.data⟩

/-- `containsSub old s = true` iff `old` occurs as a contiguous sublist of `s`
(Python `old in s`). -/
def containsSub [DecidableEq α] (old : List α) : List α → Bool
  | [] => old.isPrefixOf []
  | c :: rest => old.isPrefixOf (c :: rest) || containsSub old rest

/-- Python `os.path.basename`: everything after the last `/`. -/
def pathBasename (s : String) : String :=
  ⟨(s.data.reverse.takeWhile (fun c => decide (c ≠ '/'))).reverse⟩

/-- Hex digit, uppercase (for Python `format(n, '08X')`). -/
def hexChar (n : Nat) : Char :=
  if n < 10 then Char.ofNat (48 + n) else Char.ofNat (55 + n)

/-- Little-endian hex digits of `n`; `fuel`-guarded structural recursion so the
kernel can evaluate it. -/
def hexDigitsFuel : Nat → Nat → List Char
  | 0, _ => []
  | fuel + 1, n => if n = 0 then [] else hexChar (n % 16) :: hexDigitsFuel fuel (n / 16)

/-- Python `f-string` `{n:08X}`: upper-case hex, zero-padded to at least 8
digits (wider if the value needs more digits). -/
def formatHex08 (n : Nat) : String :=
  ⟨List.replicate (8 - (hexDigitsFuel (n + 1) n).length) '0' ++ (hexDigitsFuel (n + 1) n).reverse⟩

/-- First index of `a` (0 when absent past the end); used to state ordering
facts about emitted sequences. -/
def idxOf [DecidableEq α] (a : α) : List α → Nat
  | [] => 0
  | b :: l => if b = a then 0 else idxOf a l + 1

/-- First-occurrence-order deduplication (model of Python `list(set(xs))`). -/
def dedupFirst [DecidableEq α] (l : List α) : List α :=
  l.foldl (fun acc a => if a ∈ acc then acc else acc ++ [a]) []

/-! ## Data model: type catalog and prototype catalog entries -/

/-- One entry of `data/typedefs.json`. -/
structure TypeDef where
  identifiers : List String
  dependencies : List String
  definition : String
deriving DecidableEq, Repr

def tdDefault : TypeDef := ⟨[], [], ""⟩

/-- One parameter record of `data/prototypes.json` (`isIn`/`isOut` model the
JSON keys `in`/`out`, which are reserved words in Lean). -/
structure Param where
  type : String
  name : String
  isIn : Bool
  isOut : Bool
  optional : Bool
deriving DecidableEq, Repr

def pDefault : Param := ⟨"", "", false, false, false⟩

/-- One prototype-catalog value. -/
structure Proto where
  params : List Param
deriving DecidableEq, Repr

/-! ### Python `dict` as an insertion-ordered association list -/

/-- Python `d[k]` lookup (first matching key). -/
def dictGet (d : List (String × Proto)) (k : String) : Option Proto :=
  match d with
  | [] => none
  | (k', v) :: rest => if k' = k then some v else dictGet rest k

/-- Python `d[k] = v`: overwrite in place if present, else append. -/
def dictInsert (d : List (String × Proto)) (k : String) (v : Proto) : List (String × Proto) :=
  if (dictGet d k).isSome then d.map (fun kv => if kv.1 = k then (k, v) else kv)
  else d ++ [(k, v)]

/-- Python `del d[k]`. -/
def dictErase (d : List (String × Proto)) (k : String) : List (String × Proto) :=
  d.filter (fun kv => decide (kv.1 ≠ k))

/-! ## `_get_function_hash` -/

/-- `ror8` of the source: rotate the low 32 bits of `v` right by 8
(`((v >> 8) & (2**32-1)) | ((v << 24) & (2**32-1))`). -/
def ror8 (v : Nat) : Nat :=
  ((v >>> 8) &&& (2 ^ 32 - 1)) ||| ((v <<< 24) &&& (2 ^ 32 - 1))

/-- `struct.unpack('<H', segment.encode())[0]` for a two-character ASCII
segment: little-endian 16-bit value of the two bytes. -/
def charUnit (c1 c2 : Char) : Nat := c1.toNat + 256 * c2.toNat

def nullChar : Char := Char.ofNat 0

/-- Line 146 of the source: the name actually hashed —
`function_name.replace(self.__function_prefix, 'Zw', 1) + '\0'`. -/
def hashName (pfx : String) (functionName : String) : List Char :=
  replaceFirstL pfx.data ['Z', 'w'] functionName.data ++ [nullChar]

/-- One iteration of the hash loop (only length-2 segments survive the
source's filter). -/
def hashStep (h : Nat) (s : List Char) : Nat :=
  match s with
  | [c1, c2] => h ^^^ (charUnit c1 c2 + ror8 h)
  | _ => h

/-- `_get_function_hash`: fold over
`[s for s in [name[i:i+2] for i in range(len(name))] if len(s) == 2]`. -/
def getFunctionHash (pfx : String) (seed : Nat) (functionName : String) : Nat :=
  (((List.range (hashName pfx functionName).length).map
      (fun i => ((hashName pfx functionName).drop i).take 2)).filter
        (fun s => s.length == 2)).foldl hashStep seed

/-- The same loop written over byte offsets: one overlapping little-endian
16-bit window per offset `i < len - 1` (the amended reading of the spec). -/
def hashWindows (seed : Nat) (name : List Char) : Nat :=
  (List.range (name.length - 1)).foldl
    (fun h i => h ^^^ (charUnit (name.getD i nullChar) (name.getD (i + 1) nullChar) + ror8 h))
    seed

/-- Modelled from the spec: the hash as the claim literally words it —
consecutive NON-overlapping little-endian 16-bit code units (pairs at even
offsets), a final odd byte unhashed.  Kept only to compare with the source's
`getFunctionHash`. -/
def hashSpecNonOverlap (pfx : String) (seed : Nat) (functionName : String) : Nat :=
  (List.range ((hashName pfx functionName).length / 2)).foldl
    (fun h i =>
      h ^^^ (charUnit ((hashName pfx functionName).getD (2 * i) nullChar)
                      ((hashName pfx functionName).getD (2 * i + 1) nullChar) + ror8 h))
    seed

/-! ## `_get_typedefs` -/

/-- `next(i for i, t in enumerate(self.typedefs) if n in t['identifiers'])`:
first catalog index whose identifier set contains `n`; `none` models the
`StopIteration` raised when no entry matches. -/
def findTypedefIdx (tds : List TypeDef) (n : String) : Option Nat :=
  match tds with
  | [] => none
  | t :: rest =>
    if n ∈ t.identifiers then some 0 else (findTypedefIdx rest n).map (· + 1)

/-- `_names_to_ids`: the whole list of indices, `none` as soon as any name has
no match (the comprehension's `StopIteration`). -/
def namesToIds (tds : List TypeDef) : List String → Option (List Nat)
  | [] => some []
  | n :: rest =>
    match findTypedefIdx tds n, namesToIds tds rest with
    | some j, some ids => some (j :: ids)
    | _, _ => none

/-- `self.prototypes[function_name]['params']` (callers guarantee presence). -/
def paramsOf (protos : List (String × Proto)) (f : String) : List Param :=
  ((dictGet protos f).getD ⟨[]⟩).params

/-- Inner step of the `used_typedefs` collection loop: keep a parameter type
only if some catalog entry's identifiers contain it and it was not already
collected. -/
def usedStep (tds : List TypeDef) (acc : List String) (p : Param) : List String :=
  if (tds.filter (fun t => decide (p.type ∈ t.identifiers))) ≠ [] ∧ p.type ∉ acc then
    acc ++ [p.type]
  else acc

/-- Lines 89–94: the `used_typedefs` list (layer-0 type names). -/
def usedTypedefs (tds : List TypeDef) (protos : List (String × Proto))
    (fns : List String) : List String :=
  fns.foldl (fun acc f => (paramsOf protos f).foldl (usedStep tds) acc) []

/-- `more_dependencies` of one loop iteration: concatenated dependency lists of
the layer's typedefs, deduplicated (`list(set(...))`). -/
def depsUnionOf (tds : List TypeDef) (layer : List Nat) : List String :=
  dedupFirst (layer.foldl (fun acc j => acc ++ (tds.getD j tdDefault).dependencies) [])

/-- The `while True` layer loop (lines 97–114 up to the break), fuel-guarded:
`none` models `StopIteration` from `_names_to_ids` or non-termination. -/
def buildLayers (tds : List TypeDef) : Nat → List Nat → Option (List (List Nat))
  | 0, _ => none
  | fuel + 1, layer =>
    if depsUnionOf tds layer = [] then some [layer]
    else
      match namesToIds tds (depsUnionOf tds layer) with
      | none => none
      | some next => (buildLayers tds fuel next).map (fun rest => layer :: rest)

/-- Lines 112–113: `typedef_layers[k] = set(typedef_layers[k]) - set(typedef_layers[k+1])`
for every layer but the deepest (which stays a plain list). -/
def adjacentDiff : List (List Nat) → List (List Nat)
  | [] => []
  | [l] => [l]
  | l :: l2 :: rest =>
    ((dedupFirst l).filter (fun j => decide (j ∉ l2))) :: adjacentDiff (l2 :: rest)

/-- `_get_typedefs`, at the level of catalog indices: layers are emitted from
the deepest up (lines 117–121). -/
def getTypedefIds (tds : List TypeDef) (protos : List (String × Proto))
    (fns : List String) (fuel : Nat) : Option (List Nat) :=
  match namesToIds tds (usedTypedefs tds protos fns) with
  | none => none
  | some l0 =>
    match buildLayers tds fuel l0 with
    | none => none
    | some layers => some ((adjacentDiff layers).reverse.flatten)

/-- `_get_typedefs`: the emitted definition texts. -/
def getTypedefs (tds : List TypeDef) (protos : List (String × Proto))
    (fns : List String) (fuel : Nat) : Option (List String) :=
  (getTypedefIds tds protos fns fuel).map (fun ids => ids.map (fun j => (tds.getD j tdDefault).definition))

/-! ## `_get_function_prototype` -/

/-- Text appended for one parameter (one iteration of the loop at lines
131–138). -/
def paramText (p : Param) (isLast : Bool) : String :=
  "\n\t" ++ (if p.isIn then "IN " else "") ++ (if p.isOut then "OUT " else "")
    ++ p.type ++ " " ++ p.name ++ (if p.optional then " OPTIONAL" else "")
    ++ (if isLast then ");" else ",")

/-- `_get_function_prototype`; `none` models the `ValueError` for a name not in
the catalog. -/
def getFunctionPrototype (protos : List (String × Proto)) (functionName : String) :
    Option String :=
  match dictGet protos functionName with
  | none => none
  | some pr =>
    some (if pr.params.length ≠ 0 then
            (List.range pr.params.length).foldl
              (fun s i =>
                s ++ paramText (pr.params.getD i pDefault)
                  (decide (i = pr.params.length - 1)))
              ("EXTERN_C NTSTATUS " ++ functionName ++ "(")
          else ("EXTERN_C NTSTATUS " ++ functionName ++ "(") ++ ");")

/-! ## `_get_function_asm_code` -/

/-- Lines 163–177: the x64 stub body between the leading label and the closing
`ENDP` line. -/
def asmMidX64 (functionHash : Nat) : String :=
  " PROC\n"
  ++ "\tmov [rsp +8], rcx          ; Save registers.\n"
  ++ "\tmov [rsp+16], rdx\n"
  ++ "\tmov [rsp+24], r8\n"
  ++ "\tmov [rsp+32], r9\n"
  ++ "\tsub rsp, 28h\n"
  ++ "\tmov ecx, 0" ++ formatHex08 functionHash ++ "h        ; Load function hash into ECX.\n"
  ++ "\tcall SW2_GetSyscallNumber  ; Resolve function hash into syscall number.\n"
  ++ "\tadd rsp, 28h\n"
  ++ "\tmov rcx, [rsp +8]          ; Restore registers.\n"
  ++ "\tmov rdx, [rsp+16]\n"
  ++ "\tmov r8, [rsp+24]\n"
  ++ "\tmov r9, [rsp+32]\n"
  ++ "\tmov r10, rcx\n"
  ++ "\tsyscall                    ; Invoke system call.\n"
  ++ "\tret\n"

/-- Lines 182–196: the x86_64 (WOW64-aware 32-bit) stub body. -/
def asmMidX86 (functionHash : Nat) : String :=
  " PROC\n"
  ++ "\tpush 0" ++ formatHex08 functionHash ++ "h\n"
  ++ "\tcall SW2_GetSyscallNumber  ; Resolve function hash into syscall number.\n"
  ++ "\tadd esp, 4\n"
  ++ "\tmov ecx, fs:[0c0h]\n"
  ++ "\ttest ecx, ecx\n"
  ++ "\tjne _wow64\n"
  ++ "\tlea edx, [esp+4h]\n"
  ++ "\tINT 02eh\n"
  ++ "\tret\n"
  ++ "\t_wow64:\n"
  ++ "\txor ecx, ecx\n"
  ++ "\tlea edx, [esp+4h]\n"
  ++ "\tcall dword ptr fs:[0c0h]\n"
  ++ "\tret\n"

/-- `_get_function_asm_code`: empty string when the architecture token matches
neither branch, exactly as in the source. -/
def getFunctionAsmCode (arch pfx : String) (seed : Nat) (functionName : String) : String :=
  if arch = "x64" then
    functionName ++ asmMidX64 (getFunctionHash pfx seed functionName)
      ++ functionName ++ " ENDP\n"
  else if arch = "x86_64" then
    functionName ++ asmMidX86 (getFunctionHash pfx seed functionName)
      ++ functionName ++ " ENDP\n"
  else ""

/-! ## `generate` -/

/-- Which of the three output files a write event belongs to. -/
inductive EvKind
  | csrc
  | asmsrc
  | hdr
deriving DecidableEq, Repr

/-- One `write` call of `generate`, with its payload. -/
inductive Ev
  | csrc (s : String)
  | asmsrc (s : String)
  | hdr (s : String)
deriving DecidableEq, Repr

def evKind : Ev → EvKind
  | .csrc _ => .csrc
  | .asmsrc _ => .asmsrc
  | .hdr _ => .hdr

/-- Result of a `generate` call: the trace of write events that happened (in
order) and the exception it raised, if any.  Writes that happened before an
exception stay in the trace, as the corresponding bytes stay on disk. -/
structure GenResult where
  trace : List Ev
  err : Option String
deriving DecidableEq, Repr

/-- One iteration of the prefix-rewrite loop (lines 27–32): replace the first
`Nt` of the name by the configured prefix and relocate the catalog entry;
`none` models the `KeyError` when the looked-up name is gone. -/
def rewriteStep (pfx : String) (st : List (String × Proto) × List String) (fn : String) :
    Option (List (String × Proto) × List String) :=
  if replaceFirst fn "Nt" pfx ≠ fn then
    match dictGet st.1 fn with
    | none => none
    | some p =>
      some (dictErase (dictInsert st.1 (replaceFirst fn "Nt" pfx) p) fn,
            st.2 ++ [replaceFirst fn "Nt" pfx])
  else some (st.1, st.2 ++ [fn])

/-- Lines 24–34: the whole prefix-rewrite pass; skipped entirely when the
configured prefix is the canonical `Nt`. -/
def rewritePass (pfx : String) (protos : List (String × Proto)) (fns : List String) :
    Option (List (String × Proto) × List String) :=
  if pfx = "Nt" then some (protos, fns)
  else fns.foldlM (rewriteStep pfx) (protos, [])

/-- Lines 48–51: the architecture-specific assembly preamble. -/
def preambleFor (arch : String) : String :=
  if arch = "x64" then ".CODE\n\nEXTERN SW2_GetSyscallNumber: PROC\n\n"
  else ".MODEL FLAT, C\n.CODE\n\nASSUME FS:NOTHING\n\nEXTERN SW2_GetSyscallNumber: PROC\n\n"

/-- Lines 73–74: the prototype-writing loop; stops at the first name that
raises, keeping the writes made so far. -/
def emitProtos (protos : List (String × Proto)) : List String → List Ev × Option String
  | [] => ([], none)
  | n :: rest =>
    match getFunctionPrototype protos n with
    | none => ([], some "Invalid function name provided.")
    | some s =>
      match emitProtos protos rest with
      | (evs, e) => (Ev.hdr (s ++ "\n\n") :: evs, e)

/-- `generate` after the requested-name validation: prefix rewrite, then the
C body, the assembly file, and the header, in the source's order. -/
def generateBody (arch pfx : String) (seed : Nat) (baseC baseH : String)
    (tds : List TypeDef) (protos : List (String × Proto)) (fns0 : List String)
    (basename : String) (fuel : Nat) : GenResult :=
  match rewritePass pfx protos fns0 with
  | none => ⟨[], some "KeyError"⟩
  | some (protos2, fns) =>
    let cEv := Ev.csrc (replaceFirst baseC "<BASENAME>" (pathBasename basename))
    if arch = "x64" ∨ arch = "x86_64" then
      let asmEvs := Ev.asmsrc (preambleFor arch) ::
        (fns.map (fun n => Ev.asmsrc (getFunctionAsmCode arch pfx seed n ++ "\n")) ++ [Ev.asmsrc "END"])
      let hdrEv := Ev.hdr (replaceFirst baseH "<SEED_VALUE>" ("0x" ++ formatHex08 seed))
      match getTypedefs tds protos2 fns fuel with
      | none => ⟨cEv :: asmEvs ++ [hdrEv], some "StopIteration"⟩
      | some tdefs =>
        match emitProtos protos2 fns with
        | (pEvs, some e) =>
          ⟨cEv :: asmEvs ++ hdrEv :: (tdefs.map (fun t => Ev.hdr (t ++ "\n\n")) ++ pEvs), some e⟩
        | (pEvs, none) =>
          ⟨cEv :: asmEvs ++ hdrEv ::
            (tdefs.map (fun t => Ev.hdr (t ++ "\n\n")) ++ pEvs ++ [Ev.hdr "#endif\n"]), none⟩
    else ⟨[cEv], some "ERROR: Invalid defined architecture. Must be \"x64\" or \"x86_64\"."⟩

/-- `generate` (lines 18–77).  An empty request list means every catalog
function, in catalog key order; a request naming an unknown function raises
before anything is written. -/
def generate (arch pfx : String) (seed : Nat) (baseC baseH : String)
    (tds : List TypeDef) (protos : List (String × Proto)) (function_names : List String)
    (basename : String) (fuel : Nat) : GenResult :=
  if function_names = [] then
    generateBody arch pfx seed baseC baseH tds protos (protos.map Prod.fst) basename fuel
  else if function_names.any (fun f => (dictGet protos f).isNone) then
    ⟨[], some "Prototypes are not available for one or more of the requested functions."⟩
  else generateBody arch pfx seed baseC baseH tds protos function_names basename fuel

/-! ## Lemmas about the hash loop's segment list -/

theorem take_two_drop {α : Type} (d : α) :
    ∀ (i : Nat) (l : List α), i + 2 ≤ l.length →
      (l.drop i).take 2 = [l.getD i d, l.getD (i + 1) d]
  | 0, [], h => by simp at h
  | 0, [_], h => by simp at h
  | 0, a :: b :: t, _ => by simp [List.getD]
  | i + 1, [], h => by simp at h
  | i + 1, a :: t, h => by
    have ht : i + 2 ≤ t.length := by simpa using h
    simpa using take_two_drop d i t ht

theorem slice_filter_eq {α : Type} (d : α) (l : List α) :
    ((List.range l.length).map (fun i => (l.drop i).take 2)).filter (fun s => s.length == 2)
      = (List.range (l.length - 1)).map (fun i => [l.getD i d, l.getD (i + 1) d]) := by
  rcases List.eq_nil_or_concat l with rfl | ⟨l', a, rfl⟩
  · simp
  · simp only [List.concat_eq_append]
    have hlen : (l' ++ [a]).length = l'.length + 1 := by simp
    rw [hlen, List.range_succ, List.map_append, List.filter_append]
    have h1 : ((List.range l'.length).map
        (fun i => ((l' ++ [a]).drop i).take 2)).filter (fun s => s.length == 2)
        = (List.range l'.length).map (fun i => ((l' ++ [a]).drop i).take 2) := by
      rw [List.filter_eq_self]
      intro s hs
      obtain ⟨i, hi, rfl⟩ := List.mem_map.mp hs
      have hi' : i < l'.length := List.mem_range.mp hi
      have : (((l' ++ [a]).drop i).take 2).length = 2 := by
        simp only [List.length_take, List.length_drop, hlen]
        omega
      simp [this]
    have h2 : ([((l' ++ [a]).drop l'.length).take 2]).filter (fun s => s.length == 2) = [] := by
      have : (((l' ++ [a]).drop l'.length).take 2).length = 1 := by
        simp only [List.length_take, List.length_drop, hlen]
        omega
      simp [List.filter, this]
    rw [h1]
    simp only [List.map_cons, List.map_nil]
    rw [h2, List.append_nil]
    have hm1 : l'.length + 1 - 1 = l'.length := by omega
    rw [hm1]
    apply List.map_congr_left
    intro i hi
    have hi' : i < l'.length := List.mem_range.mp hi
    exact take_two_drop d i (l' ++ [a]) (by rw [hlen]; omega)

/-- Claim C2 (amended): the hash first rewrites the configured prefix to `Zw`
and appends a terminator, then starting from the seed folds
`h := h XOR (u + ror8 h)` over OVERLAPPING little-endian 16-bit windows, one
for each byte offset `i < len - 1` (windows advance one byte at a time; the
final 1-byte window is not hashed) — not over non-overlapping pairs. -/
theorem c2_theorem (pfx : String) (seed : Nat) (fn : String) :
    getFunctionHash pfx seed fn = hashWindows seed (hashName pfx fn) := by
  unfold getFunctionHash hashWindows
  rw [slice_filter_eq nullChar, List.foldl_map]
  rfl

/-- Claim C2, counterexample: at seed 1 and name `NtClose`, the source's hash
(overlapping windows) differs from the claim's non-overlapping-pairs hash. -/
theorem c2_counterexample :
    getFunctionHash "Nt" 1 "NtClose" = 77465867 ∧
      hashSpecNonOverlap "Nt" 1 "NtClose" = 3504354495 ∧
      getFunctionHash "Nt" 1 "NtClose" ≠ hashSpecNonOverlap "Nt" 1 "NtClose" := by
  refine ⟨by decide, by decide, by decide⟩

/-- Claim C4 (code bug): the hash is NOT always below `2^32` — Python's
unbounded integers let the XOR of a 33-bit sum leak past 32 bits, e.g. seed
`0xFFFFFFFF` (inside the generator's seed range) with `NtClose` yields
`5311175962 ≥ 2^32`, which the 8-hex-digit emitter and the 32-bit runtime
hasher cannot represent. -/
theorem c4_theorem :
    getFunctionHash "Nt" 4294967295 "NtClose" = 5311175962 ∧
      2 ^ 32 ≤ getFunctionHash "Nt" 4294967295 "NtClose" := by
  refine ⟨by decide, by decide⟩

/-! ## Lemmas for the prefix rewrite (C8) -/

theorem replaceFirstL_of_not_containsSub {α : Type} [DecidableEq α]
    {old : List α} (new : List α) :
    ∀ {s : List α}, containsSub old s = false → replaceFirstL old new s = s := by
  intro s
  induction s with
  | nil =>
    intro h
    simp only [containsSub] at h
    simp only [replaceFirstL]
    rw [if_neg]
    intro hold
    subst hold
    simp [List.isPrefixOf] at h
  | cons c rest ih =>
    intro h
    simp only [containsSub, Bool.or_eq_false_iff] at h
    simp only [replaceFirstL, if_neg (by simp [h.1] : ¬old.isPrefixOf (c :: rest) = true)]
    rw [ih h.2]

theorem foldlM_rewriteStep_noop (pfx : String) :
    ∀ (fns : List String) (d : List (String × Proto)) (acc : List String),
      (∀ n ∈ fns, containsSub "Nt".data n.data = false) →
      List.foldlM (rewriteStep pfx) (d, acc) fns = some (d, acc ++ fns) := by
  intro fns
  induction fns with
  | nil => intro d acc _; simp
  | cons n rest ih =>
    intro d acc h
    have hn : replaceFirst n "Nt" pfx = n := by
      unfold replaceFirst
      rw [replaceFirstL_of_not_containsSub _ (h n (by simp))]
    rw [List.foldlM_cons]
    simp only [rewriteStep, hn, ne_eq, not_true_eq_false, if_false]
    rw [Option.bind_eq_bind, Option.some_bind]
    rw [ih d (acc ++ [n]) (fun m hm => h m (by simp [hm]))]
    simp

/-- Claim C8 (amended): rewriting with the canonical prefix `Nt` is a no-op,
and rewriting twice with the same non-canonical prefix equals rewriting once
PROVIDED the once-rewritten names contain no further `Nt` occurrence (a prefix
that itself contains `Nt`, e.g. `PNt`, breaks idempotence). -/
theorem c8_theorem :
    (∀ (protos : List (String × Proto)) (fns : List String),
        rewritePass "Nt" protos fns = some (protos, fns)) ∧
    (∀ (pfx : String) (protos : List (String × Proto)) (fns : List String)
        (protos2 : List (String × Proto)) (fns2 : List String),
        rewritePass pfx protos fns = some (protos2, fns2) →
        (∀ n ∈ fns2, containsSub "Nt".data n.data = false) →
        rewritePass pfx protos2 fns2 = some (protos2, fns2)) := by
  constructor
  · intro protos fns
    simp [rewritePass]
  · intro pfx protos fns protos2 fns2 h1 h2
    by_cases hp : pfx = "Nt"
    · subst hp
      simp only [rewritePass, if_pos rfl] at h1 ⊢
      exact h1 ▸ rfl
    · simp only [rewritePass, if_neg hp] at h1 ⊢
      simpa using foldlM_rewriteStep_noop pfx fns2 protos2 [] h2

/-- Claim C8, witness: the no-op part at a concrete catalog, and the
twice-equals-once part at prefix `Xy` (whose rewritten names contain no `Nt`). -/
theorem c8_witness :
    rewritePass "Nt" [("NtClose", Proto.mk [])] ["NtClose"]
        = some ([("NtClose", Proto.mk [])], ["NtClose"]) ∧
    rewritePass "Xy" [("XyClose", Proto.mk [])] ["XyClose"]
        = some ([("XyClose", Proto.mk [])], ["XyClose"]) :=
  ⟨c8_theorem.1 [("NtClose", Proto.mk [])] ["NtClose"],
   c8_theorem.2 "Xy" [("NtClose", Proto.mk [])] ["NtClose"]
     [("XyClose", Proto.mk [])] ["XyClose"] (by decide) (by decide)⟩

/-- Claim C8, counterexample: with prefix `PNt`, one rewrite of `NtClose`
gives `PNtClose`, but rewriting that result again changes it (to `PPNtClose`),
so twice-rewriting is not equivalent to once-rewriting. -/
theorem c8_counterexample :
    rewritePass "PNt" [("NtClose", Proto.mk [])] ["NtClose"]
        = some ([("PNtClose", Proto.mk [])], ["PNtClose"]) ∧
    rewritePass "PNt" [("PNtClose", Proto.mk [])] ["PNtClose"]
        ≠ some ([("PNtClose", Proto.mk [])], ["PNtClose"]) := by
  refine ⟨by decide, by decide⟩

/-! ## C5: unknown requested function -/

/-- Claim C5 (confirmed): whenever some requested function is absent from the
prototype catalog, `generate` raises before any write: the trace is empty and
the `ValueError` is reported. -/
theorem c5_theorem (arch pfx : String) (seed : Nat) (baseC baseH : String)
    (tds : List TypeDef) (protos : List (String × Proto)) (function_names : List String)
    (basename : String) (fuel : Nat) (f : String)
    (hf : f ∈ function_names) (hnone : dictGet protos f = none) :
    generate arch pfx seed baseC baseH tds protos function_names basename fuel
      = ⟨[], some "Prototypes are not available for one or more of the requested functions."⟩ := by
  have h1 : ¬(function_names = []) := by
    rintro rfl
    simp at hf
  have h2 : function_names.any (fun f => (dictGet protos f).isNone) = true :=
    List.any_eq_true.mpr ⟨f, hf, by simp [hnone]⟩
  simp only [generate, if_neg h1, h2, if_true]

/-- Claim C5, witness. -/
theorem c5_witness :
    generate "x64" "Nt" 5 "C" "H" [] [("NtA", Proto.mk [])] ["NtMissing"] "o" 3
      = ⟨[], some "Prototypes are not available for one or more of the requested functions."⟩ :=
  c5_theorem "x64" "Nt" 5 "C" "H" [] [("NtA", Proto.mk [])] ["NtMissing"] "o" 3
    "NtMissing" (by decide) (by decide)

/-! ## C6: unmatched names in dependency resolution -/

theorem mem_usedTypedefs_inner (tds : List TypeDef) :
    ∀ (ps : List Param) (acc : List String),
      (∀ t ∈ acc, ∃ td ∈ tds, t ∈ td.identifiers) →
      ∀ t ∈ ps.foldl (usedStep tds) acc, ∃ td ∈ tds, t ∈ td.identifiers := by
  intro ps
  induction ps with
  | nil => intro acc h t ht; exact h t ht
  | cons p ps ih =>
    intro acc h
    apply ih
    intro t ht
    unfold usedStep at ht
    by_cases hc : (tds.filter (fun t => decide (p.type ∈ t.identifiers))) ≠ [] ∧ p.type ∉ acc
    · rw [if_pos hc] at ht
      rcases List.mem_append.mp ht with h' | h'
      · exact h t h'
      · obtain ⟨x, hx⟩ := List.exists_mem_of_ne_nil _ hc.1
        have hx' := List.mem_filter.mp hx
        have ht' : t = p.type := by simpa using h'
        exact ⟨x, hx'.1, by rw [ht']; exact of_decide_eq_true hx'.2⟩
    · rw [if_neg hc] at ht
      exact h t ht

theorem mem_usedTypedefs (tds : List TypeDef) (protos : List (String × Proto))
    (fns : List String) :
    ∀ t ∈ usedTypedefs tds protos fns, ∃ td ∈ tds, t ∈ td.identifiers := by
  unfold usedTypedefs
  suffices h : ∀ (l : List String) (acc : List String),
      (∀ t ∈ acc, ∃ td ∈ tds, t ∈ td.identifiers) →
      ∀ t ∈ l.foldl (fun acc f => (paramsOf protos f).foldl (usedStep tds) acc) acc,
        ∃ td ∈ tds, t ∈ td.identifiers by
    exact h fns [] (by simp)
  intro l
  induction l with
  | nil => intro acc h t ht; exact h t ht
  | cons f l ih =>
    intro acc h
    exact ih _ (mem_usedTypedefs_inner tds (paramsOf protos f) acc h)

theorem findTypedefIdx_isSome_of_mem {tds : List TypeDef} {n : String}
    (h : ∃ td ∈ tds, n ∈ td.identifiers) : (findTypedefIdx tds n).isSome = true := by
  induction tds with
  | nil => simp at h
  | cons t rest ih =>
    unfold findTypedefIdx
    by_cases hn : n ∈ t.identifiers
    · rw [if_pos hn]; rfl
    · rw [if_neg hn]
      obtain ⟨td, htd, hmem⟩ := h
      rcases List.mem_cons.mp htd with rfl | htd'
      · exact absurd hmem hn
      · simpa using ih ⟨td, htd', hmem⟩

theorem namesToIds_isSome {tds : List TypeDef} :
    ∀ {names : List String}, (∀ n ∈ names, (findTypedefIdx tds n).isSome = true) →
      (namesToIds tds names).isSome = true := by
  intro names
  induction names with
  | nil => intro _; rfl
  | cons n rest ih =>
    intro h
    obtain ⟨j, hj⟩ := Option.isSome_iff_exists.mp (h n (by simp))
    obtain ⟨ids, hids⟩ := Option.isSome_iff_exists.mp (ih (fun m hm => h m (by simp [hm])))
    simp [namesToIds, hj, hids]

/-- Claim C6 (amended): a PARAMETER type name matching no catalog entry is
silently skipped — it never enters the collected layer-0 list, whose lookup
therefore never raises; a typedef DEPENDENCY name with no matching definition,
by contrast, makes resolution raise `StopIteration` (see the counterexample). -/
theorem c6_theorem (tds : List TypeDef) (protos : List (String × Proto))
    (fns : List String) (t : String) :
    ((∀ td ∈ tds, t ∉ td.identifiers) → t ∉ usedTypedefs tds protos fns) ∧
    (namesToIds tds (usedTypedefs tds protos fns)).isSome = true := by
  constructor
  · intro h ht
    obtain ⟨td, htd, hmem⟩ := mem_usedTypedefs tds protos fns t ht
    exact h td htd hmem
  · exact namesToIds_isSome
      (fun n hn => findTypedefIdx_isSome_of_mem (mem_usedTypedefs tds protos fns n hn))

/-- Claim C6, witness: a parameter type `ZZZ` with no catalog match is absent
from the collected list, and the layer-0 lookup succeeds. -/
theorem c6_witness :
    "ZZZ" ∉ usedTypedefs [TypeDef.mk ["A"] [] "typedef A;"]
        [("NtF", Proto.mk [Param.mk "ZZZ" "pz" true false false])] ["NtF"] ∧
    (namesToIds [TypeDef.mk ["A"] [] "typedef A;"]
        (usedTypedefs [TypeDef.mk ["A"] [] "typedef A;"]
          [("NtF", Proto.mk [Param.mk "ZZZ" "pz" true false false])] ["NtF"])).isSome = true :=
  ⟨(c6_theorem [TypeDef.mk ["A"] [] "typedef A;"]
      [("NtF", Proto.mk [Param.mk "ZZZ" "pz" true false false])] ["NtF"] "ZZZ").1
      (by decide),
   (c6_theorem [TypeDef.mk ["A"] [] "typedef A;"]
      [("NtF", Proto.mk [Param.mk "ZZZ" "pz" true false false])] ["NtF"] "ZZZ").2⟩

/-- Claim C6, counterexample: a typedef DEPENDENCY name (`MISSING`) matching no
definition is not silently skipped — `_get_typedefs` raises (`none`), so the
resolution does not complete without error as the claim states. -/
theorem c6_counterexample :
    findTypedefIdx [TypeDef.mk ["A"] ["MISSING"] "typedef A;"] "MISSING" = none ∧
    getTypedefs [TypeDef.mk ["A"] ["MISSING"] "typedef A;"]
        [("NtF", Proto.mk [Param.mk "A" "pa" true false false])] ["NtF"] 9 = none := by
  refine ⟨by decide, by decide⟩

/-! ## Characterizing successful `generate` runs -/

theorem getFunctionPrototype_isSome {protos : List (String × Proto)} {n : String}
    (h : (dictGet protos n).isSome = true) :
    (getFunctionPrototype protos n).isSome = true := by
  obtain ⟨pr, hpr⟩ := Option.isSome_iff_exists.mp h
  simp [getFunctionPrototype, hpr]

theorem emitProtos_eq_of_isSome (protos : List (String × Proto)) :
    ∀ fns : List String, (∀ n ∈ fns, (dictGet protos n).isSome = true) →
      emitProtos protos fns
        = (fns.map (fun n => Ev.hdr ((getFunctionPrototype protos n).getD "" ++ "\n\n")), none) := by
  intro fns
  induction fns with
  | nil => intro _; rfl
  | cons n rest ih =>
    intro h
    obtain ⟨s, hs⟩ := Option.isSome_iff_exists.mp (getFunctionPrototype_isSome (h n (by simp)))
    simp [emitProtos, hs, ih (fun m hm => h m (by simp [hm]))]

theorem emitProtos_none (protos : List (String × Proto)) :
    ∀ (fns : List String) (evs : List Ev), emitProtos protos fns = (evs, none) →
      evs = fns.map (fun n => Ev.hdr ((getFunctionPrototype protos n).getD "" ++ "\n\n")) ∧
        ∀ n ∈ fns, (getFunctionPrototype protos n).isSome = true := by
  intro fns
  induction fns with
  | nil =>
    intro evs h
    simp only [emitProtos] at h
    exact ⟨by simpa using congrArg Prod.fst h.symm, by simp⟩
  | cons n rest ih =>
    intro evs h
    simp only [emitProtos] at h
    cases hp : getFunctionPrototype protos n with
    | none => rw [hp] at h; simpa using congrArg Prod.snd h
    | some s =>
      rw [hp] at h
      cases hrest : emitProtos protos rest with
      | mk evs' e =>
        rw [hrest] at h
        have h1 : Ev.hdr (s ++ "\n\n") :: evs' = evs := congrArg Prod.fst h
        have h2 : e = none := congrArg Prod.snd h
        obtain ⟨hevs', hall⟩ := ih evs' (h2 ▸ hrest)
        constructor
        · rw [← h1, hevs']
          simp [hp]
        · intro m hm
          rcases List.mem_cons.mp hm with rfl | hm'
          · simp [hp]
          · exact hall m hm'

theorem dictGet_isSome_of_mem_keys :
    ∀ (protos : List (String × Proto)) (k : String), k ∈ protos.map Prod.fst →
      (dictGet protos k).isSome = true := by
  intro protos
  induction protos with
  | nil => intro k h; simp at h
  | cons kv rest ih =>
    intro k h
    obtain ⟨k', v⟩ := kv
    simp only [List.map_cons, List.mem_cons] at h
    unfold dictGet
    by_cases he : k' = k
    · rw [if_pos he]; rfl
    · rw [if_neg he]
      rcases h with h' | h'
      · exact absurd h'.symm he
      · exact ih k h'

/-- On a successful run, `generateBody` produced exactly the C-body write, then
the assembly preamble, stubs and `END`, then the header base, typedefs,
prototypes and `#endif`, all driven by the same rewritten name list. -/
theorem generateBody_success (arch pfx : String) (seed : Nat) (baseC baseH : String)
    (tds : List TypeDef) (protos : List (String × Proto)) (fns0 : List String)
    (basename : String) (fuel : Nat) (tr : List Ev)
    (h : generateBody arch pfx seed baseC baseH tds protos fns0 basename fuel = ⟨tr, none⟩) :
    ∃ (protos2 : List (String × Proto)) (fns : List String) (tdefs : List String),
      rewritePass pfx protos fns0 = some (protos2, fns) ∧
      (arch = "x64" ∨ arch = "x86_64") ∧
      getTypedefs tds protos2 fns fuel = some tdefs ∧
      (∀ n ∈ fns, (getFunctionPrototype protos2 n).isSome = true) ∧
      tr = (Ev.csrc (replaceFirst baseC "<BASENAME>" (pathBasename basename)) ::
            Ev.asmsrc (preambleFor arch) ::
              (fns.map (fun n => Ev.asmsrc (getFunctionAsmCode arch pfx seed n ++ "\n"))
                ++ [Ev.asmsrc "END"])) ++
           Ev.hdr (replaceFirst baseH "<SEED_VALUE>" ("0x" ++ formatHex08 seed)) ::
             (tdefs.map (fun t => Ev.hdr (t ++ "\n\n")) ++
              fns.map (fun n => Ev.hdr ((getFunctionPrototype protos2 n).getD "" ++ "\n\n")) ++
              [Ev.hdr "#endif\n"]) := by
  unfold generateBody at h
  cases hrw : rewritePass pfx protos fns0 with
  | none => simp only [hrw] at h; simp at h
  | some pr =>
    obtain ⟨protos2, fns⟩ := pr
    simp only [hrw] at h
    by_cases harch : arch = "x64" ∨ arch = "x86_64"
    · rw [if_pos harch] at h
      cases hgt : getTypedefs tds protos2 fns fuel with
      | none => simp only [hgt] at h; simp at h
      | some tdefs =>
        simp only [hgt] at h
        cases hep : emitProtos protos2 fns with
        | mk pEvs e =>
          simp only [hep] at h
          cases e with
          | some err => simp at h
          | none =>
            injection h with h1 h2
            obtain ⟨hevs, hall⟩ := emitProtos_none protos2 fns pEvs hep
            refine ⟨protos2, fns, tdefs, rfl, harch, hgt, hall, ?_⟩
            rw [← h1, hevs]
    · rw [if_neg harch] at h
      simp at h

/-- A successful `generate` dispatches to `generateBody` with the requested
names, or with every catalog key when the request was empty. -/
theorem generate_success (arch pfx : String) (seed : Nat) (baseC baseH : String)
    (tds : List TypeDef) (protos : List (String × Proto)) (function_names : List String)
    (basename : String) (fuel : Nat) (tr : List Ev)
    (h : generate arch pfx seed baseC baseH tds protos function_names basename fuel = ⟨tr, none⟩) :
    ∃ fns0 : List String,
      (function_names = [] ∧ fns0 = protos.map Prod.fst ∨
        function_names ≠ [] ∧ fns0 = function_names) ∧
      generateBody arch pfx seed baseC baseH tds protos fns0 basename fuel = ⟨tr, none⟩ := by
  unfold generate at h
  by_cases he : function_names = []
  · rw [if_pos he] at h
    exact ⟨protos.map Prod.fst, Or.inl ⟨he, rfl⟩, h⟩
  · rw [if_neg he] at h
    by_cases ha : function_names.any (fun f => (dictGet protos f).isNone) = true
    · rw [if_pos ha] at h
      simp at h
    · rw [if_neg ha] at h
      exact ⟨function_names, Or.inr ⟨he, rfl⟩, h⟩

/-- Claim C7 (amended): in every successful generation session the write trace
splits into three consecutive blocks — the C body FIRST, then the assembly
file, then the header file (the spec's order "header, then C, then assembly"
is wrong; see the counterexample). -/
theorem c7_theorem (arch pfx : String) (seed : Nat) (baseC baseH : String)
    (tds : List TypeDef) (protos : List (String × Proto)) (function_names : List String)
    (basename : String) (fuel : Nat) (tr : List Ev)
    (h : generate arch pfx seed baseC baseH tds protos function_names basename fuel = ⟨tr, none⟩) :
    ∃ (cs asms hdrs : List String),
      tr = cs.map Ev.csrc ++ asms.map Ev.asmsrc ++ hdrs.map Ev.hdr ∧
      cs ≠ [] ∧ asms ≠ [] ∧ hdrs ≠ [] := by
  obtain ⟨fns0, _, hbody⟩ := generate_success _ _ _ _ _ _ _ _ _ _ _ h
  obtain ⟨protos2, fns, tdefs, _, _, _, _, htr⟩ :=
    generateBody_success _ _ _ _ _ _ _ _ _ _ _ hbody
  refine ⟨[replaceFirst baseC "<BASENAME>" (pathBasename basename)],
          preambleFor arch ::
            (fns.map (fun n => getFunctionAsmCode arch pfx seed n ++ "\n") ++ ["END"]),
          replaceFirst baseH "<SEED_VALUE>" ("0x" ++ formatHex08 seed) ::
            (tdefs.map (fun t => t ++ "\n\n") ++
             fns.map (fun n => (getFunctionPrototype protos2 n).getD "" ++ "\n\n") ++
             ["#endif\n"]),
          ?_, by simp, by simp, by simp⟩
  rw [htr]
  simp [List.map_map, Function.comp_def]

set_option maxRecDepth 8000 in
/-- Claim C7, counterexample: a concrete successful session whose first write
event is the C body, not the header — the header writes come last. -/
theorem c7_counterexample :
    (generate "x64" "Nt" 5 "C<BASENAME>" "H<SEED_VALUE>" [] [("NtZero", Proto.mk [])]
        ["NtZero"] "out" 4).err = none ∧
    (generate "x64" "Nt" 5 "C<BASENAME>" "H<SEED_VALUE>" [] [("NtZero", Proto.mk [])]
        ["NtZero"] "out" 4).trace.map evKind
      = [EvKind.csrc, EvKind.asmsrc, EvKind.asmsrc, EvKind.asmsrc,
         EvKind.hdr, EvKind.hdr, EvKind.hdr] ∧
    ((generate "x64" "Nt" 5 "C<BASENAME>" "H<SEED_VALUE>" [] [("NtZero", Proto.mk [])]
        ["NtZero"] "out" 4).trace.map evKind).head? ≠ some EvKind.hdr := by
  refine ⟨by decide, by decide, by decide⟩

set_option maxRecDepth 8000 in
/-- Claim C7, witness: the amended block structure at the same concrete
session. -/
theorem c7_witness :
    ∃ (cs asms hdrs : List String),
      (generate "x64" "Nt" 5 "C<BASENAME>" "H<SEED_VALUE>" [] [("NtZero", Proto.mk [])]
          ["NtZero"] "out" 4).trace
        = cs.map Ev.csrc ++ asms.map Ev.asmsrc ++ hdrs.map Ev.hdr ∧
      cs ≠ [] ∧ asms ≠ [] ∧ hdrs ≠ [] :=
  c7_theorem "x64" "Nt" 5 "C<BASENAME>" "H<SEED_VALUE>" [] [("NtZero", Proto.mk [])]
    ["NtZero"] "out" 4
    (generate "x64" "Nt" 5 "C<BASENAME>" "H<SEED_VALUE>" [] [("NtZero", Proto.mk [])]
      ["NtZero"] "out" 4).trace (by decide)

/-! ## Extracting names back out of emitted text (C9) -/

/-- The stub label of an assembly block: the text before the first space. -/
def extractStubLabel (s : String) : String :=
  ⟨s.data.takeWhile (fun c => decide (c ≠ ' '))⟩

/-- The function name of a header prototype line: the text after
`EXTERN_C NTSTATUS ` and before the `(`. -/
def extractProtoName (s : String) : String :=
  ⟨(s.data.drop ("EXTERN_C NTSTATUS " : String).data.length).takeWhile
    (fun c => decide (c ≠ '('))⟩

theorem takeWhile_append_boundary {α : Type} (p : α → Bool) :
    ∀ (xs : List α) (y : α) (ys : List α), (∀ x ∈ xs, p x = true) → p y = false →
      (xs ++ y :: ys).takeWhile p = xs := by
  intro xs
  induction xs with
  | nil => intro y ys _ hy; simp [List.takeWhile_cons, hy]
  | cons x xs ih =>
    intro y ys hx hy
    have hpx : p x = true := hx x (by simp)
    simp only [List.cons_append, List.takeWhile_cons, hpx, if_true]
    rw [ih y ys (fun a ha => hx a (by simp [ha])) hy]

theorem head?_some_exists {α : Type} {l : List α} {a : α} (h : l.head? = some a) :
    ∃ t, l = a :: t := by
  cases l with
  | nil => simp at h
  | cons b t =>
    simp only [List.head?_cons, Option.some.injEq] at h
    exact ⟨t, by rw [h]⟩

theorem string_head_append (s t : String) (c : Char) (h : s.data.head? = some c) :
    (s ++ t).data.head? = some c := by
  rw [String.data_append]
  obtain ⟨t', ht⟩ := head?_some_exists h
  simp [ht]

theorem asmMid_head_x64 (h : Nat) : (asmMidX64 h).data.head? = some ' ' := by
  unfold asmMidX64
  repeat apply string_head_append
  rfl

theorem asmMid_head_x86 (h : Nat) : (asmMidX86 h).data.head? = some ' ' := by
  unfold asmMidX86
  repeat apply string_head_append
  rfl

theorem extractStubLabel_key (n mid ts : String) (hm : mid.data.head? = some ' ')
    (hn : ∀ c ∈ n.data, c ≠ ' ') : extractStubLabel (n ++ mid ++ ts) = n := by
  obtain ⟨t, ht⟩ := head?_some_exists hm
  unfold extractStubLabel
  simp only [String.data_append, ht, List.append_assoc, List.cons_append]
  rw [takeWhile_append_boundary _ n.data ' ' (t ++ ts.data)
    (fun x hx => by simpa using hn x hx) (by simp)]

/-- Extracting the label of an emitted stub block recovers the function name
(for the two real architecture variants and space-free names). -/
theorem extractStubLabel_asm (arch pfx : String) (seed : Nat) (n : String)
    (harch : arch = "x64" ∨ arch = "x86_64") (hn : ∀ c ∈ n.data, c ≠ ' ') :
    extractStubLabel (getFunctionAsmCode arch pfx seed n ++ "\n") = n := by
  rcases harch with h | h <;> subst h
  · show extractStubLabel
      (n ++ asmMidX64 (getFunctionHash pfx seed n) ++ n ++ " ENDP\n" ++ "\n") = n
    rw [String.append_assoc (n ++ asmMidX64 (getFunctionHash pfx seed n) ++ n) " ENDP\n" "\n",
        String.append_assoc (n ++ asmMidX64 (getFunctionHash pfx seed n)) n (" ENDP\n" ++ "\n")]
    exact extractStubLabel_key n _ _ (asmMid_head_x64 _) hn
  · show extractStubLabel
      (n ++ asmMidX86 (getFunctionHash pfx seed n) ++ n ++ " ENDP\n" ++ "\n") = n
    rw [String.append_assoc (n ++ asmMidX86 (getFunctionHash pfx seed n) ++ n) " ENDP\n" "\n",
        String.append_assoc (n ++ asmMidX86 (getFunctionHash pfx seed n)) n (" ENDP\n" ++ "\n")]
    exact extractStubLabel_key n _ _ (asmMid_head_x86 _) hn

theorem foldl_append_factor (g : Nat → String) :
    ∀ (l : List Nat) (a : String),
      l.foldl (fun s i => s ++ g i) a = a ++ l.foldl (fun s i => s ++ g i) "" := by
  intro l
  induction l with
  | nil => intro a; simp [String.append_empty]
  | cons i l ih =>
    intro a
    simp only [List.foldl_cons]
    rw [ih (a ++ g i), ih ("" ++ g i), String.empty_append, String.append_assoc]

theorem getFunctionPrototype_shape (protos : List (String × Proto)) (n s : String)
    (h : getFunctionPrototype protos n = some s) :
    ∃ r : String, s = ("EXTERN_C NTSTATUS " ++ n ++ "(") ++ r := by
  unfold getFunctionPrototype at h
  cases hd : dictGet protos n with
  | none => rw [hd] at h; simp at h
  | some pr =>
    rw [hd] at h
    simp only [Option.some.injEq] at h
    by_cases hnp : pr.params.length ≠ 0
    · rw [if_pos hnp] at h
      refine ⟨(List.range pr.params.length).foldl
        (fun s i => s ++ paramText (pr.params.getD i pDefault)
          (decide (i = pr.params.length - 1))) "", ?_⟩
      rw [← h, foldl_append_factor]
    · rw [if_neg hnp] at h
      exact ⟨");", h.symm⟩

/-- Extracting the name of an emitted prototype line recovers the function name
(for names without `(`). -/
theorem extractProtoName_proto (protos : List (String × Proto)) (n s : String)
    (h : getFunctionPrototype protos n = some s) (hn : ∀ c ∈ n.data, c ≠ '(') :
    extractProtoName (s ++ "\n\n") = n := by
  obtain ⟨r, rfl⟩ := getFunctionPrototype_shape protos n s h
  unfold extractProtoName
  have hparen : ("(" : String).data = ['('] := rfl
  rw [String.data_append, String.data_append, String.data_append, String.data_append]
  rw [List.append_assoc (("EXTERN_C NTSTATUS " : String).data ++ n.data)
        ("(" : String).data r.data,
      List.append_assoc (("EXTERN_C NTSTATUS " : String).data ++ n.data)
        (("(" : String).data ++ r.data) ("\n\n" : String).data,
      List.append_assoc ("EXTERN_C NTSTATUS " : String).data n.data
        ((("(" : String).data ++ r.data) ++ ("\n\n" : String).data)]
  rw [List.drop_left]
  rw [hparen, List.singleton_append, List.cons_append]
  rw [takeWhile_append_boundary _ n.data '(' (r.data ++ ("\n\n" : String).data)
    (fun x hx => by simpa using hn x hx) (by simp)]

/-- Claim C9 (confirmed): on every successful session the assembly stub blocks
and the header prototype lines are generated from the SAME name list in the
same order; extracting the stub labels and the prototype names (for ordinary
names, free of spaces and parentheses) yields that same sequence for both
artifacts. -/
theorem c9_theorem (arch pfx : String) (seed : Nat) (baseC baseH : String)
    (tds : List TypeDef) (protos : List (String × Proto)) (function_names : List String)
    (basename : String) (fuel : Nat) (tr : List Ev)
    (h : generate arch pfx seed baseC baseH tds protos function_names basename fuel = ⟨tr, none⟩) :
    ∃ (protos2 : List (String × Proto)) (fns : List String) (tdefs : List String),
      tr = (Ev.csrc (replaceFirst baseC "<BASENAME>" (pathBasename basename)) ::
            Ev.asmsrc (preambleFor arch) ::
              (fns.map (fun n => Ev.asmsrc (getFunctionAsmCode arch pfx seed n ++ "\n"))
                ++ [Ev.asmsrc "END"])) ++
           Ev.hdr (replaceFirst baseH "<SEED_VALUE>" ("0x" ++ formatHex08 seed)) ::
             (tdefs.map (fun t => Ev.hdr (t ++ "\n\n")) ++
              fns.map (fun n => Ev.hdr ((getFunctionPrototype protos2 n).getD "" ++ "\n\n")) ++
              [Ev.hdr "#endif\n"]) ∧
      ((∀ n ∈ fns, (∀ c ∈ n.data, c ≠ ' ') ∧ (∀ c ∈ n.data, c ≠ '(')) →
        fns.map (fun n => extractStubLabel (getFunctionAsmCode arch pfx seed n ++ "\n")) = fns ∧
        fns.map (fun n => extractProtoName ((getFunctionPrototype protos2 n).getD "" ++ "\n\n"))
          = fns) := by
  obtain ⟨fns0, _, hbody⟩ := generate_success _ _ _ _ _ _ _ _ _ _ _ h
  obtain ⟨protos2, fns, tdefs, _, harch, _, hall, htr⟩ :=
    generateBody_success _ _ _ _ _ _ _ _ _ _ _ hbody
  refine ⟨protos2, fns, tdefs, htr, ?_⟩
  intro hyg
  constructor
  · rw [show fns.map (fun n => extractStubLabel (getFunctionAsmCode arch pfx seed n ++ "\n"))
        = fns.map id from List.map_congr_left
          (fun n hn => extractStubLabel_asm arch pfx seed n harch (hyg n hn).1)]
    exact List.map_id fns
  · rw [show fns.map (fun n => extractProtoName ((getFunctionPrototype protos2 n).getD "" ++ "\n\n"))
        = fns.map id from List.map_congr_left (fun n hn => ?_)]
    · exact List.map_id fns
    · obtain ⟨s, hs⟩ := Option.isSome_iff_exists.mp (hall n hn)
      rw [hs]
      exact extractProtoName_proto protos2 n s hs (hyg n hn).2

set_option maxRecDepth 8000 in
/-- Claim C9, witness: the consistency property at a concrete session. -/
theorem c9_witness :
    ∃ (protos2 : List (String × Proto)) (fns : List String) (tdefs : List String),
      (generate "x64" "Nt" 5 "C<BASENAME>" "H<SEED_VALUE>" [] [("NtZero", Proto.mk [])]
          ["NtZero"] "out" 4).trace
        = (Ev.csrc (replaceFirst "C<BASENAME>" "<BASENAME>" (pathBasename "out")) ::
            Ev.asmsrc (preambleFor "x64") ::
              (fns.map (fun n => Ev.asmsrc (getFunctionAsmCode "x64" "Nt" 5 n ++ "\n"))
                ++ [Ev.asmsrc "END"])) ++
           Ev.hdr (replaceFirst "H<SEED_VALUE>" "<SEED_VALUE>" ("0x" ++ formatHex08 5)) ::
             (tdefs.map (fun t => Ev.hdr (t ++ "\n\n")) ++
              fns.map (fun n => Ev.hdr ((getFunctionPrototype protos2 n).getD "" ++ "\n\n")) ++
              [Ev.hdr "#endif\n"]) ∧
      ((∀ n ∈ fns, (∀ c ∈ n.data, c ≠ ' ') ∧ (∀ c ∈ n.data, c ≠ '(')) →
        fns.map (fun n => extractStubLabel (getFunctionAsmCode "x64" "Nt" 5 n ++ "\n")) = fns ∧
        fns.map (fun n => extractProtoName ((getFunctionPrototype protos2 n).getD "" ++ "\n\n"))
          = fns) :=
  c9_theorem "x64" "Nt" 5 "C<BASENAME>" "H<SEED_VALUE>" [] [("NtZero", Proto.mk [])]
    ["NtZero"] "out" 4
    (generate "x64" "Nt" 5 "C<BASENAME>" "H<SEED_VALUE>" [] [("NtZero", Proto.mk [])]
      ["NtZero"] "out" 4).trace (by decide)

/-! ## C10: empty request list -/

/-- Claim C10 (confirmed): an empty (or omitted) requested-function list is not
an error: `generate` runs on every function of the prototype catalog, in
catalog key order, emitting all three artifacts (given a supported
architecture and a resolvable type catalog). -/
theorem c10_theorem (arch : String) (seed : Nat) (baseC baseH : String)
    (tds : List TypeDef) (protos : List (String × Proto)) (basename : String) (fuel : Nat)
    (tdefs : List String)
    (harch : arch = "x64" ∨ arch = "x86_64")
    (htd : getTypedefs tds protos (protos.map Prod.fst) fuel = some tdefs) :
    generate arch "Nt" seed baseC baseH tds protos [] basename fuel =
      ⟨(Ev.csrc (replaceFirst baseC "<BASENAME>" (pathBasename basename)) ::
         Ev.asmsrc (preambleFor arch) ::
           ((protos.map Prod.fst).map
              (fun n => Ev.asmsrc (getFunctionAsmCode arch "Nt" seed n ++ "\n"))
             ++ [Ev.asmsrc "END"])) ++
        Ev.hdr (replaceFirst baseH "<SEED_VALUE>" ("0x" ++ formatHex08 seed)) ::
          (tdefs.map (fun t => Ev.hdr (t ++ "\n\n")) ++
           (protos.map Prod.fst).map
             (fun n => Ev.hdr ((getFunctionPrototype protos n).getD "" ++ "\n\n")) ++
           [Ev.hdr "#endif\n"]), none⟩ := by
  have hrw : rewritePass "Nt" protos (protos.map Prod.fst)
      = some (protos, protos.map Prod.fst) := by simp [rewritePass]
  have hep : emitProtos protos (protos.map Prod.fst)
      = ((protos.map Prod.fst).map
          (fun n => Ev.hdr ((getFunctionPrototype protos n).getD "" ++ "\n\n")), none) :=
    emitProtos_eq_of_isSome protos (protos.map Prod.fst)
      (fun n hn => dictGet_isSome_of_mem_keys protos n hn)
  unfold generate
  rw [if_pos rfl]
  unfold generateBody
  simp only [hrw, if_pos harch, htd, hep]

set_option maxRecDepth 8000 in
/-- Claim C10, witness: a concrete empty-request run over a one-function
catalog. -/
theorem c10_witness :
    generate "x64" "Nt" 5 "C" "H" [] [("NtZero", Proto.mk [])] [] "o" 4 =
      ⟨(Ev.csrc (replaceFirst "C" "<BASENAME>" (pathBasename "o")) ::
         Ev.asmsrc (preambleFor "x64") ::
           (([("NtZero", Proto.mk [])].map Prod.fst).map
              (fun n => Ev.asmsrc (getFunctionAsmCode "x64" "Nt" 5 n ++ "\n"))
             ++ [Ev.asmsrc "END"])) ++
        Ev.hdr (replaceFirst "H" "<SEED_VALUE>" ("0x" ++ formatHex08 5)) ::
          (([] : List String).map (fun t => Ev.hdr (t ++ "\n\n")) ++
           ([("NtZero", Proto.mk [])].map Prod.fst).map
             (fun n => Ev.hdr ((getFunctionPrototype [("NtZero", Proto.mk [])] n).getD ""
               ++ "\n\n")) ++
           [Ev.hdr "#endif\n"]), none⟩ :=
  c10_theorem "x64" 5 "C" "H" [] [("NtZero", Proto.mk [])] "o" 4 []
    (Or.inl rfl) (by decide)

/-! ## C1: invalid architecture token -/

/-- Claim C1 (amended): for an architecture token other than `x64`/`x86_64`
(and an otherwise valid request), `generate` raises the configuration
`ValueError` only DURING assembly generation, AFTER the C body file has been
completely written (and the assembly file created empty): the trace holds
exactly one write — the C body — and neither stubs nor any header output. -/
theorem c1_theorem (arch pfx : String) (seed : Nat) (baseC baseH : String)
    (tds : List TypeDef) (protos : List (String × Proto)) (function_names : List String)
    (basename : String) (fuel : Nat) (protos2 : List (String × Proto)) (fns : List String)
    (hvalid : function_names = [] ∨
      function_names.any (fun f => (dictGet protos f).isNone) = false)
    (hrw : rewritePass pfx protos
        (if function_names = [] then protos.map Prod.fst else function_names)
      = some (protos2, fns))
    (ha1 : arch ≠ "x64") (ha2 : arch ≠ "x86_64") :
    generate arch pfx seed baseC baseH tds protos function_names basename fuel =
      ⟨[Ev.csrc (replaceFirst baseC "<BASENAME>" (pathBasename basename))],
       some "ERROR: Invalid defined architecture. Must be \"x64\" or \"x86_64\"."⟩ := by
  have harch : ¬(arch = "x64" ∨ arch = "x86_64") := by
    rintro (h | h) <;> [exact ha1 h; exact ha2 h]
  unfold generate
  by_cases he : function_names = []
  · rw [if_pos he] at hrw ⊢
    unfold generateBody
    simp only [hrw, if_neg harch]
  · rw [if_neg he] at hrw ⊢
    rcases hvalid with h | h
    · exact absurd h he
    · rw [h]
      rw [if_neg (by simp)]
      unfold generateBody
      simp only [hrw, if_neg harch]

set_option maxRecDepth 8000 in
/-- Claim C1, counterexample: with the invalid token `arm64` the run reports
the configuration error, but the C body HAS been written (one `.c` write event
in the trace), refuting "no output file is written" and "reported before any
generation work begins". -/
theorem c1_counterexample :
    generate "arm64" "Nt" 5 "C<BASENAME>" "H<SEED_VALUE>" [] [("NtZero", Proto.mk [])]
        ["NtZero"] "out" 4
      = ⟨[Ev.csrc "Cout"],
         some "ERROR: Invalid defined architecture. Must be \"x64\" or \"x86_64\"."⟩ ∧
    (generate "arm64" "Nt" 5 "C<BASENAME>" "H<SEED_VALUE>" [] [("NtZero", Proto.mk [])]
        ["NtZero"] "out" 4).trace ≠ [] := by
  refine ⟨by decide, by decide⟩

set_option maxRecDepth 8000 in
/-- Claim C1, witness: the amended behaviour at a concrete invalid-architecture
run (with a non-canonical prefix, exercising the rewrite as well). -/
theorem c1_witness :
    generate "arm64" "Xy" 5 "C<BASENAME>" "H<SEED_VALUE>" [] [("NtZero", Proto.mk [])]
        ["NtZero"] "out" 4 =
      ⟨[Ev.csrc (replaceFirst "C<BASENAME>" "<BASENAME>" (pathBasename "out"))],
       some "ERROR: Invalid defined architecture. Must be \"x64\" or \"x86_64\"."⟩ :=
  c1_theorem "arm64" "Xy" 5 "C<BASENAME>" "H<SEED_VALUE>" [] [("NtZero", Proto.mk [])]
    ["NtZero"] "out" 4 [("XyZero", Proto.mk [])] ["XyZero"]
    (Or.inr (by decide)) (by decide) (by decide) (by decide)

/-! ## C3: order and multiplicity of the emitted typedefs -/

/-- The emission order of `_get_typedefs` (deepest layer first), written as a
recursion; equal to `(adjacentDiff ls).reverse.flatten`. -/
def emitOrder : List (List Nat) → List Nat
  | [] => []
  | [l] => l
  | l :: l2 :: rest =>
    emitOrder (l2 :: rest) ++ (dedupFirst l).filter (fun j => decide (j ∉ l2))

/-- Membership in some layer. -/
def InLayers (j : Nat) (ls : List (List Nat)) : Prop := ∃ l ∈ ls, j ∈ l

/-- The invariant the layer loop establishes: each layer's deduplicated
dependency union resolves exactly to the next layer, and the deepest layer has
no dependencies. -/
inductive Chain (tds : List TypeDef) : List (List Nat) → Prop
  | last (l : List Nat) : depsUnionOf tds l = [] → Chain tds [l]
  | cons (l next : List Nat) (rest : List (List Nat)) :
      namesToIds tds (depsUnionOf tds l) = some next →
      Chain tds (next :: rest) → Chain tds (l :: next :: rest)

/-- A typedef index is needed when a parameter type of a requested function
resolves to it, or, transitively, when a needed typedef lists a dependency
that resolves to it. -/
inductive NeededId (tds : List TypeDef) (protos : List (String × Proto)) (fns : List String) :
    Nat → Prop
  | direct (t : String) (j : Nat) : t ∈ usedTypedefs tds protos fns →
      findTypedefIdx tds t = some j → NeededId tds protos fns j
  | trans (j : Nat) (d : String) (jd : Nat) : NeededId tds protos fns j →
      d ∈ (tds.getD j tdDefault).dependencies → findTypedefIdx tds d = some jd →
      NeededId tds protos fns jd

theorem emitOrder_eq : ∀ ls : List (List Nat), (adjacentDiff ls).reverse.flatten = emitOrder ls := by
  intro ls
  induction ls with
  | nil => rfl
  | cons l ls ih =>
    cases ls with
    | nil => simp [adjacentDiff, emitOrder]
    | cons l2 rest =>
      show ((((dedupFirst l).filter fun j => decide (j ∉ l2)) ::
        adjacentDiff (l2 :: rest)).reverse).flatten = _
      rw [List.reverse_cons, List.flatten_append, ih]
      simp [emitOrder]

theorem dedupFirst_foldl_mem {α : Type} [DecidableEq α] :
    ∀ (l acc : List α) (a : α),
      (a ∈ l.foldl (fun acc x => if x ∈ acc then acc else acc ++ [x]) acc) ↔
        a ∈ acc ∨ a ∈ l := by
  intro l
  induction l with
  | nil => intro acc a; simp
  | cons x l ih =>
    intro acc a
    rw [List.foldl_cons]
    by_cases hx : x ∈ acc
    · rw [if_pos hx, ih]
      constructor
      · rintro (h | h)
        · exact Or.inl h
        · exact Or.inr (List.mem_cons_of_mem _ h)
      · rintro (h | h)
        · exact Or.inl h
        · rcases List.mem_cons.mp h with rfl | h'
          · exact Or.inl hx
          · exact Or.inr h'
    · rw [if_neg hx, ih]
      simp only [List.mem_append, List.mem_singleton, List.mem_cons]
      tauto

theorem dedupFirst_mem {α : Type} [DecidableEq α] (l : List α) (a : α) :
    a ∈ dedupFirst l ↔ a ∈ l := by
  unfold dedupFirst
  rw [dedupFirst_foldl_mem]
  simp

theorem foldl_append_mem {α β : Type} (g : β → List α) :
    ∀ (l : List β) (acc : List α) (a : α),
      (a ∈ l.foldl (fun acc x => acc ++ g x) acc) ↔ a ∈ acc ∨ ∃ x ∈ l, a ∈ g x := by
  intro l
  induction l with
  | nil => intro acc a; simp
  | cons x l ih =>
    intro acc a
    rw [List.foldl_cons, ih]
    simp only [List.mem_append, List.mem_cons]
    constructor
    · rintro ((h | h) | ⟨y, hy, hg⟩)
      · exact Or.inl h
      · exact Or.inr ⟨x, Or.inl rfl, h⟩
      · exact Or.inr ⟨y, Or.inr hy, hg⟩
    · rintro (h | ⟨y, (rfl | hy), hg⟩)
      · exact Or.inl (Or.inl h)
      · exact Or.inl (Or.inr hg)
      · exact Or.inr ⟨y, hy, hg⟩

theorem mem_depsUnionOf {tds : List TypeDef} {layer : List Nat} {d : String} :
    d ∈ depsUnionOf tds layer ↔ ∃ j ∈ layer, d ∈ (tds.getD j tdDefault).dependencies := by
  unfold depsUnionOf
  rw [dedupFirst_mem, foldl_append_mem]
  simp

theorem namesToIds_mem (tds : List TypeDef) :
    ∀ {names : List String} {ids : List Nat}, namesToIds tds names = some ids →
      ∀ d ∈ names, ∃ jd, findTypedefIdx tds d = some jd ∧ jd ∈ ids := by
  intro names
  induction names with
  | nil => intro ids _ d hd; simp at hd
  | cons n rest ih =>
    intro ids h d hd
    unfold namesToIds at h
    cases hf : findTypedefIdx tds n with
    | none => rw [hf] at h; simp at h
    | some j =>
      rw [hf] at h
      cases hr : namesToIds tds rest with
      | none => rw [hr] at h; simp at h
      | some ids0 =>
        rw [hr] at h
        simp only [Option.some.injEq] at h
        subst h
        rcases List.mem_cons.mp hd with rfl | hd'
        · exact ⟨j, hf, by simp⟩
        · obtain ⟨jd, h1, h2⟩ := ih hr d hd'
          exact ⟨jd, h1, by simp [h2]⟩

theorem buildLayers_chain (tds : List TypeDef) :
    ∀ (fuel : Nat) (l : List Nat) (ls : List (List Nat)),
      buildLayers tds fuel l = some ls → Chain tds ls ∧ ∃ rest, ls = l :: rest := by
  intro fuel
  induction fuel with
  | zero => intro l ls h; simp [buildLayers] at h
  | succ fuel ih =>
    intro l ls h
    unfold buildLayers at h
    by_cases hd : depsUnionOf tds l = []
    · rw [if_pos hd] at h
      simp only [Option.some.injEq] at h
      subst h
      exact ⟨Chain.last l hd, [], rfl⟩
    · rw [if_neg hd] at h
      cases hn : namesToIds tds (depsUnionOf tds l) with
      | none => simp only [hn] at h; simp at h
      | some next =>
        simp only [hn] at h
        cases hb : buildLayers tds fuel next with
        | none => simp only [hb] at h; simp at h
        | some ls2 =>
          simp only [hb] at h
          replace h : l :: ls2 = ls := by simpa using h
          subst h
          obtain ⟨hch, rest2, hr⟩ := ih next ls2 hb
          subst hr
          exact ⟨Chain.cons l next rest2 hn hch, _, rfl⟩

theorem mem_emitOrder : ∀ (ls : List (List Nat)) (j : Nat), j ∈ emitOrder ls ↔ InLayers j ls := by
  intro ls
  induction ls with
  | nil => intro j; simp [emitOrder, InLayers]
  | cons l ls ih =>
    cases ls with
    | nil =>
      intro j
      simp [emitOrder, InLayers]
    | cons l2 rest =>
      intro j
      constructor
      · intro hj
        rcases List.mem_append.mp hj with h | h
        · obtain ⟨lx, hlx, hx⟩ := (ih j).mp h
          exact ⟨lx, List.mem_cons_of_mem _ hlx, hx⟩
        · have hm := List.mem_filter.mp h
          exact ⟨l, List.mem_cons_self _ _, (dedupFirst_mem _ _).mp hm.1⟩
      · rintro ⟨lx, hlx, hx⟩
        rcases List.mem_cons.mp hlx with rfl | hlx'
        · by_cases hj2 : j ∈ l2
          · exact List.mem_append.mpr (Or.inl ((ih j).mpr ⟨l2, List.mem_cons_self _ _, hj2⟩))
          · exact List.mem_append.mpr (Or.inr (List.mem_filter.mpr
              ⟨(dedupFirst_mem _ _).mpr hx, by simpa using hj2⟩))
        · exact List.mem_append.mpr (Or.inl ((ih j).mpr ⟨lx, hlx', hx⟩))

theorem chain_closed {tds : List TypeDef} :
    ∀ {ls : List (List Nat)}, Chain tds ls → ∀ j, InLayers j ls →
      ∀ d ∈ (tds.getD j tdDefault).dependencies,
        ∃ jd, findTypedefIdx tds d = some jd ∧ InLayers jd ls := by
  intro ls hch
  induction hch with
  | last lA hdepsA =>
    intro j hj d hd
    obtain ⟨l', hl', hjl⟩ := hj
    rw [List.mem_singleton] at hl'
    subst hl'
    have hmem : d ∈ depsUnionOf tds l' := mem_depsUnionOf.mpr ⟨j, hjl, hd⟩
    rw [hdepsA] at hmem
    simp at hmem
  | cons l next rest hmap hch ih =>
    intro j hj d hd
    obtain ⟨l', hl', hjl⟩ := hj
    rcases List.mem_cons.mp hl' with rfl | hl''
    · have hmem : d ∈ depsUnionOf tds l' := mem_depsUnionOf.mpr ⟨j, hjl, hd⟩
      obtain ⟨jd, hjd, hjdnext⟩ := namesToIds_mem tds hmap d hmem
      exact ⟨jd, hjd, next, by simp, hjdnext⟩
    · obtain ⟨jd, hjd, lx, hlx, hx⟩ := ih j ⟨l', hl'', hjl⟩ d hd
      exact ⟨jd, hjd, lx, List.mem_cons_of_mem _ hlx, hx⟩

theorem idxOf_lt_length {α : Type} [DecidableEq α] {a : α} :
    ∀ {l : List α}, a ∈ l → idxOf a l < l.length := by
  intro l
  induction l with
  | nil => intro h; simp at h
  | cons b l ih =>
    intro h
    unfold idxOf
    by_cases hb : b = a
    · rw [if_pos hb]; simp
    · rw [if_neg hb]
      have : a ∈ l := by
        rcases List.mem_cons.mp h with rfl | h'
        · exact absurd rfl hb
        · exact h'
      simpa using ih this

theorem idxOf_append_left {α : Type} [DecidableEq α] {a : α} :
    ∀ {l1 : List α} (l2 : List α), a ∈ l1 → idxOf a (l1 ++ l2) = idxOf a l1 := by
  intro l1
  induction l1 with
  | nil => intro l2 h; simp at h
  | cons b l1 ih =>
    intro l2 h
    rw [List.cons_append]
    unfold idxOf
    by_cases hb : b = a
    · rw [if_pos hb, if_pos hb]
    · rw [if_neg hb, if_neg hb]
      have : a ∈ l1 := by
        rcases List.mem_cons.mp h with rfl | h'
        · exact absurd rfl hb
        · exact h'
      rw [ih l2 this]

theorem idxOf_append_right {α : Type} [DecidableEq α] {a : α} :
    ∀ {l1 : List α} (l2 : List α), a ∉ l1 → idxOf a (l1 ++ l2) = l1.length + idxOf a l2 := by
  intro l1
  induction l1 with
  | nil => intro l2 _; simp
  | cons b l1 ih =>
    intro l2 h
    have hb : ¬b = a := fun he => h (by rw [he]; exact List.mem_cons_self _ _)
    have h1 : a ∉ l1 := fun hm => h (List.mem_cons_of_mem _ hm)
    rw [List.cons_append]
    simp only [idxOf, if_neg hb]
    rw [ih l2 h1]
    simp only [List.length_cons]
    omega

theorem chain_ord {tds : List TypeDef} :
    ∀ {ls : List (List Nat)}, Chain tds ls → ∀ i, InLayers i ls →
      ∀ d ∈ (tds.getD i tdDefault).dependencies, ∀ jd, findTypedefIdx tds d = some jd →
        idxOf jd (emitOrder ls) < idxOf i (emitOrder ls) := by
  intro ls hch
  induction hch with
  | last lA hdepsA =>
    intro i hi d hd jd _
    obtain ⟨l', hl', hil⟩ := hi
    rw [List.mem_singleton] at hl'
    subst hl'
    have hmem : d ∈ depsUnionOf tds l' := mem_depsUnionOf.mpr ⟨i, hil, hd⟩
    rw [hdepsA] at hmem
    simp at hmem
  | cons l next rest hmap hch ih =>
    intro i hi d hd jd hjd
    have hEq : emitOrder (l :: next :: rest)
        = emitOrder (next :: rest) ++ (dedupFirst l).filter (fun j => decide (j ∉ next)) := rfl
    by_cases hin : InLayers i (next :: rest)
    · have hlt := ih i hin d hd jd hjd
      obtain ⟨jd', hjd', hjdin⟩ := chain_closed hch i hin d hd
      have he : jd' = jd := by rw [hjd] at hjd'; exact (Option.some.inj hjd').symm
      subst he
      have hjdE : jd' ∈ emitOrder (next :: rest) := (mem_emitOrder _ _).mpr hjdin
      have hiE : i ∈ emitOrder (next :: rest) := (mem_emitOrder _ _).mpr hin
      rw [hEq, idxOf_append_left _ hjdE, idxOf_append_left _ hiE]
      exact hlt
    · obtain ⟨l', hl', hil⟩ := hi
      have hil' : i ∈ l := by
        rcases List.mem_cons.mp hl' with rfl | h'
        · exact hil
        · exact absurd ⟨l', h', hil⟩ hin
      have hmem : d ∈ depsUnionOf tds l := mem_depsUnionOf.mpr ⟨i, hil', hd⟩
      obtain ⟨jd', hjd', hjdnext⟩ := namesToIds_mem tds hmap d hmem
      have he : jd' = jd := by rw [hjd] at hjd'; exact (Option.some.inj hjd').symm
      subst he
      have hjdE : jd' ∈ emitOrder (next :: rest) :=
        (mem_emitOrder _ _).mpr ⟨next, by simp, hjdnext⟩
      have hiE : i ∉ emitOrder (next :: rest) := fun hm => hin ((mem_emitOrder _ _).mp hm)
      rw [hEq, idxOf_append_left _ hjdE, idxOf_append_right _ hiE]
      have h1 : idxOf jd' (emitOrder (next :: rest)) < (emitOrder (next :: rest)).length :=
        idxOf_lt_length hjdE
      omega

theorem needed_inLayers (tds : List TypeDef) (protos : List (String × Proto))
    (fns : List String) (l0 : List Nat) (rest : List (List Nat))
    (hl0 : namesToIds tds (usedTypedefs tds protos fns) = some l0)
    (hch : Chain tds (l0 :: rest)) :
    ∀ j, NeededId tds protos fns j → InLayers j (l0 :: rest) := by
  intro j hj
  induction hj with
  | direct t j ht hfind =>
    obtain ⟨jd, hjd, hmem⟩ := namesToIds_mem tds hl0 t ht
    have he : jd = j := by rw [hfind] at hjd; exact (Option.some.inj hjd).symm
    subst he
    exact ⟨l0, by simp, hmem⟩
  | trans j d jd _ hd hfind ih =>
    obtain ⟨jd', hjd', hin⟩ := chain_closed hch j ih d hd
    have he : jd' = jd := by rw [hfind] at hjd'; exact (Option.some.inj hjd').symm
    subst he
    exact hin

/-- Claim C3 (amended): for every request on which `_get_typedefs` completes,
every definition needed directly or transitively by a parameter of a requested
function appears in the output AT LEAST once (not exactly once: duplicate
removal only compares adjacent layers, so a definition rediscovered on a
non-adjacent deeper layer is emitted more than once — see the counterexample),
and the FIRST occurrence of every emitted definition comes strictly before the
first occurrence of any definition that depends on it. -/
theorem c3_theorem (tds : List TypeDef) (protos : List (String × Proto)) (fns : List String)
    (fuel : Nat) (out : List Nat)
    (h : getTypedefIds tds protos fns fuel = some out) :
    getTypedefs tds protos fns fuel
        = some (out.map (fun j => (tds.getD j tdDefault).definition)) ∧
    (∀ j, NeededId tds protos fns j → j ∈ out) ∧
    (∀ i ∈ out, ∀ d ∈ (tds.getD i tdDefault).dependencies, ∀ jd,
        findTypedefIdx tds d = some jd → idxOf jd out < idxOf i out) := by
  have hg : getTypedefs tds protos fns fuel
      = some (out.map (fun j => (tds.getD j tdDefault).definition)) := by
    unfold getTypedefs
    rw [h]
    rfl
  unfold getTypedefIds at h
  cases hl0 : namesToIds tds (usedTypedefs tds protos fns) with
  | none => simp only [hl0] at h; simp at h
  | some l0 =>
    simp only [hl0] at h
    cases hb : buildLayers tds fuel l0 with
    | none => simp only [hb] at h; simp at h
    | some layers =>
      simp only [hb, Option.some.injEq] at h
      obtain ⟨hch, rest, hr⟩ := buildLayers_chain tds fuel l0 layers hb
      subst hr
      have hout : out = emitOrder (l0 :: rest) := by rw [← h, emitOrder_eq]
      subst hout
      refine ⟨hg, ?_, ?_⟩
      · intro j hj
        exact (mem_emitOrder _ _).mpr (needed_inLayers tds protos fns l0 rest hl0 hch j hj)
      · intro i hi d hd jd hjd
        exact chain_ord hch i ((mem_emitOrder _ _).mp hi) d hd jd hjd

/-- The catalog that exhibits the duplicate emission: `A` depends on `B`, `B`
on `C`, and `C` is also used directly as a parameter type, so `C` is
rediscovered two layers below its first discovery. -/
def tdsC3 : List TypeDef :=
  [TypeDef.mk ["A"] ["B"] "typedef A;", TypeDef.mk ["B"] ["C"] "typedef B;",
   TypeDef.mk ["C"] [] "typedef C;"]

def protosC3 : List (String × Proto) :=
  [("NtF", Proto.mk [Param.mk "A" "pa" true false false, Param.mk "C" "pc" false true false])]

/-- Claim C3, counterexample: the needed definition `typedef C;` (index 2) is
emitted TWICE — the adjacent-layer set difference does not remove a duplicate
two layers apart — refuting "appears exactly once". -/
theorem c3_counterexample :
    getTypedefs tdsC3 protosC3 ["NtF"] 9
      = some ["typedef C;", "typedef B;", "typedef A;", "typedef C;"] ∧
    ["typedef C;", "typedef B;", "typedef A;", "typedef C;"].count "typedef C;" = 2 ∧
    NeededId tdsC3 protosC3 ["NtF"] 2 := by
  refine ⟨by decide, by decide, NeededId.direct "C" 2 (by decide) (by decide)⟩

/-- A small resolvable catalog for the witness: `A` (used by the request)
depends on `B`; the emitted order is `B` (index 1) before `A` (index 0). -/
def tdsW : List TypeDef :=
  [TypeDef.mk ["A"] ["B"] "typedef A;", TypeDef.mk ["B"] [] "typedef B;"]

def protosW : List (String × Proto) :=
  [("NtF", Proto.mk [Param.mk "A" "pa" true false false])]

/-- Claim C3, witness: the amended statement at a concrete catalog. -/
theorem c3_witness :
    getTypedefs tdsW protosW ["NtF"] 9
        = some ([1, 0].map (fun j => (tdsW.getD j tdDefault).definition)) ∧
    (∀ j, NeededId tdsW protosW ["NtF"] j → j ∈ [1, 0]) ∧
    (∀ i ∈ [1, 0], ∀ d ∈ (tdsW.getD i tdDefault).dependencies, ∀ jd,
        findTypedefIdx tdsW d = some jd →
          idxOf jd [1, 0] < idxOf i [1, 0]) :=
  c3_theorem tdsW protosW ["NtF"] 9 [1, 0] (by decide)

end SW
